import Mathlib

/-!
Verification of the TimeOpti scheduling core.

This file gives a shallow embedding, in Lean 4, of the deterministic
scheduling core of the repository:

* `backend/services/matching_service.py` (class `TaskMatcher`): task
  prioritization, gap matching, fit scoring, schedule assembly;
* `backend/services/free_time_service.py` (`calculate_free_slots`):
  busy-interval merging and free-slot inversion.

Modelling conventions:

* The record types follow the pydantic models.  `Task` is the record of
  `backend/app/schemas/task.py` (the data model of the spec, with
  `time_preference` and `reasoning`); `Gap` and the result records follow
  `backend/services/ai_service.py` / `matching_service.py`.
* Clock strings `"HH:MM"` are represented by their value in minutes since
  midnight (an `Int`); `datetime` values inside `calculate_free_slots` are
  represented in seconds relative to midnight of the target day (an `Int`).
  `strftime("%H:%M")` after `strptime`/`timedelta` arithmetic amounts to
  reduction modulo 1440 minutes, written `Int.emod` here.
* Python `float` scores are represented by exact rationals `ℚ`; every score
  in the source is built from integer data by `+ - * /`.
* A deadline string is represented by the outcome of
  `datetime.fromisoformat` on it: the field `deadline : Option (Option Int)`
  is `none` for a missing deadline, `some (some ts)` for a parseable string
  with timestamp `ts`, and `some none` for an unparseable string.
* Python's `sorted` (a stable sort by a key) is represented by
  `List.insertionSort` with the non-strict key comparison: a stable sort by
  a total preorder is extensionally unique, so insertion sort denotes the
  same function.
-/

namespace TimeOpti

/-- Python `str.lower` (ASCII case folding), applied to the character data;
extensionally `String.toLower`. -/
def strLower (s : String) : String :=
  ⟨s.data.map Char.toLower⟩

/-- The `Task` record, after `backend/app/schemas/task.py`. -/
structure Task where
  id : String
  title : String
  duration_minutes : Int
  priority : String
  deadline : Option (Option Int) := none
  time_preference : Option String := none
  reasoning : Option String := none
deriving DecidableEq

/-- The `Gap` record, after `backend/services/ai_service.py`; `start_time` and
`end_time` are the `"HH:MM"` strings in minutes since midnight. -/
structure Gap where
  start_time : Int
  end_time : Int
  duration_minutes : Int
deriving DecidableEq

/-- The `ScheduledTask` record of `matching_service.py`. -/
structure ScheduledTask where
  task : Task
  start_time : Int
  end_time : Int
  gap_index : Nat
  fit_score : ℚ
  explanation : String
deriving DecidableEq

/-- The `ScheduleResult` record of `matching_service.py`. -/
structure ScheduleResult where
  scheduled_tasks : List ScheduledTask
  unscheduled_tasks : List Task
  explanation : String
  success : Bool
deriving DecidableEq

/-- Python `word in text` (substring containment). -/
def strContains (hay needle : String) : Bool :=
  decide (needle.data <:+: hay.data)

/-- Python `any(word in t for word in ws)`. -/
def containsAny (t : String) (ws : List String) : Bool :=
  ws.any (fun w => strContains t w)

/-- Python `TaskMatcher.priority_weights.get(p, 1.0)` for an already lowercased `p`. -/
def priorityWeight (p : String) : ℚ :=
  if p = "high" then 3 else if p = "medium" then 2 else if p = "low" then 1 else 1

/-- The efficiency term of `_calculate_fit_score`
(`matching_service.py` lines 150-152):
`1.0 - (gap.duration_minutes - task.duration_minutes) / gap.duration_minutes`. -/
def efficiencyScore (task : Task) (gap : Gap) : ℚ :=
  let waste : ℚ := ((gap.duration_minutes - task.duration_minutes : Int) : ℚ)
  1 - waste / ((gap.duration_minutes : Int) : ℚ)

/-- The `time_boost` computation of `_calculate_fit_score`
(`matching_service.py` lines 158-237), as a function of the task and of
`gap_hour = int(gap.start_time.split(':')[0])`.  The `time_preference`
block first sets `time_boost`, and then the keyword chain (which starts
with a plain `if`, not `elif`) runs unconditionally and can overwrite it;
branches of the keyword chain that assign nothing leave the earlier value
(`tb0`) in place. -/
def timeBoostOf (task : Task) (gap_hour : Int) : ℚ :=
  let task_lower := strLower task.title
  let tb0 : ℚ :=
    match task.time_preference with
    | some p0 =>
      let pref := strLower p0
      if pref = "morning" ∧ 7 ≤ gap_hour ∧ gap_hour ≤ 12 then 2
      else if pref = "afternoon" ∧ 12 ≤ gap_hour ∧ gap_hour ≤ 17 then 2
      else if pref = "evening" ∧ 17 ≤ gap_hour ∧ gap_hour ≤ 21 then 2
      else if pref = "midday" ∧ 11 ≤ gap_hour ∧ gap_hour ≤ 14 then 2
      else -5
    | none => 0
  if containsAny task_lower ["breakfast", "petit déjeuner"] then
    if 7 ≤ gap_hour ∧ gap_hour ≤ 10 then 3
    else if gap_hour < 7 ∨ 12 < gap_hour then -10
    else -2
  else if containsAny task_lower ["lunch", "déjeuner midi"] then
    if 11 ≤ gap_hour ∧ gap_hour ≤ 14 then 3 else -8
  else if containsAny task_lower ["dinner", "dîner", "souper", "diner"]
      || (strContains task_lower "dinner" && strContains task_lower "friend") then
    if 18 ≤ gap_hour ∧ gap_hour ≤ 21 then 3
    else if gap_hour < 12 then -10
    else if 12 ≤ gap_hour ∧ gap_hour < 17 then -7
    else -5
  else if containsAny task_lower ["study", "work", "étudier", "travailler", "projet"] then
    if 9 ≤ gap_hour ∧ gap_hour ≤ 15 then 3/2
    else if 20 ≤ gap_hour then -3
    else tb0
  else if containsAny task_lower ["visit", "friend", "social", "visite", "ami", "friends"] then
    if 14 ≤ gap_hour ∧ gap_hour ≤ 21 then 3/2
    else if gap_hour < 10 then -5
    else -1
  else if containsAny task_lower ["exercise", "gym", "sport", "workout"] then
    if (7 ≤ gap_hour ∧ gap_hour ≤ 9) ∨ (17 ≤ gap_hour ∧ gap_hour ≤ 19) then 3/2
    else if 21 ≤ gap_hour then -3
    else tb0
  else if strLower task.priority = "high" then
    if 9 ≤ gap_hour ∧ gap_hour ≤ 12 then 1/5 else tb0
  else tb0

/-- Embeds `TaskMatcher._calculate_fit_score`. -/
def calculate_fit_score (task : Task) (gap : Gap) : ℚ :=
  let efficiency := efficiencyScore task gap
  let priority_boost := priorityWeight (strLower task.priority) / 3
  let time_boost := timeBoostOf task (gap.start_time / 60)
  efficiency + priority_boost + time_boost

/-- The `deadline_score` computed inside `_prioritize_tasks.sort_key`:
the parsed timestamp, or `+inf` (represented by `none`) for a missing or
unparseable deadline. -/
def deadline_score (task : Task) : Option Int :=
  match task.deadline with
  | some (some ts) => some ts
  | some none => none
  | none => none

/-- The sort key of `_prioritize_tasks`: `(-priority_score, deadline_score)`,
with `none` in the second component standing for `float('inf')`. -/
def sort_key (task : Task) : ℚ × Option Int :=
  (-(priorityWeight (strLower task.priority)), deadline_score task)

/-- Order on deadline scores: `none` is `+inf`. -/
def dLe : Option Int → Option Int → Prop
  | _, none => True
  | none, some _ => False
  | some x, some y => x ≤ y

instance (a b : Option Int) : Decidable (dLe a b) :=
  match a, b with
  | none, none => isTrue trivial
  | some _, none => isTrue trivial
  | none, some _ => isFalse (fun h => h)
  | some x, some y => inferInstanceAs (Decidable (x ≤ y))

/-- Lexicographic (non-strict) order on sort keys, as Python compares the
key tuples. -/
def keyLe (a b : ℚ × Option Int) : Prop :=
  a.1 < b.1 ∨ (a.1 = b.1 ∧ dLe a.2 b.2)

instance : DecidableRel keyLe := fun a b =>
  inferInstanceAs (Decidable (_ ∨ _))

/-- The comparison under which `sorted(tasks, key=sort_key)` sorts. -/
def taskLe (a b : Task) : Prop := keyLe (sort_key a) (sort_key b)

instance : DecidableRel taskLe := fun a b =>
  inferInstanceAs (Decidable (keyLe _ _))

/-- Embeds `TaskMatcher._prioritize_tasks`: Python's `sorted` is the stable sort
by `sort_key`; a stable sort by a total preorder is extensionally unique,
and `List.insertionSort` by the non-strict key comparison is that stable
sort. -/
def prioritize_tasks (tasks : List Task) : List Task :=
  List.insertionSort taskLe tasks

/-- The loop of `TaskMatcher._find_best_gap`: running index `i`, running
`best` match and `best_score` (initially `None` and `-1`); a gap is
considered only if `gap.duration_minutes >= task.duration_minutes`, and the
running best is replaced only on a strictly greater score. -/
def findLoop (task : Task) : List Gap → Nat → Option (Nat × Gap × ℚ) → ℚ →
    Option (Nat × Gap × ℚ)
  | [], _, best, _ => best
  | gap :: rest, i, best, best_score =>
    if task.duration_minutes ≤ gap.duration_minutes then
      let score := calculate_fit_score task gap
      if best_score < score then findLoop task rest (i + 1) (some (i, gap, score)) score
      else findLoop task rest (i + 1) best best_score
    else findLoop task rest (i + 1) best best_score

/-- Embeds `TaskMatcher._find_best_gap`. -/
def find_best_gap (task : Task) (gaps : List Gap) : Option (Nat × Gap × ℚ) :=
  findLoop task gaps 0 none (-1)

/-- The loop invariant of `_find_best_gap` over a processed prefix `l` of
the gap list: the running `best`/`best_score` pair records the first-seen
maximum above the `-1` sentinel among the qualifying gaps of `l`. -/
def FindState (task : Task) (l : List Gap) (best : Option (Nat × Gap × ℚ)) (bs : ℚ) :
    Prop :=
  match best with
  | none => bs = -1 ∧
      ∀ (j : Nat) (g : Gap), l[j]? = some g →
        task.duration_minutes ≤ g.duration_minutes →
        calculate_fit_score task g ≤ -1
  | some (i, g, s) => bs = s ∧ l[i]? = some g ∧
      task.duration_minutes ≤ g.duration_minutes ∧
      s = calculate_fit_score task g ∧ -1 < s ∧
      (∀ (j : Nat) (g' : Gap), l[j]? = some g' →
        task.duration_minutes ≤ g'.duration_minutes →
        calculate_fit_score task g' ≤ s) ∧
      (∀ (j : Nat) (g' : Gap), j < i → l[j]? = some g' →
        task.duration_minutes ≤ g'.duration_minutes →
        calculate_fit_score task g' < s)

/-- Embeds `TaskMatcher._generate_task_explanation`
(`matching_service.py` lines 290-347). -/
def generate_task_explanation (task : Task) (start_minutes : Int) (fit_score : ℚ) : String :=
  let hour := start_minutes / 60
  let task_lower := strLower task.title
  match task.reasoning with
  | some r => r
  | none =>
    let timeLines : List String :=
      if 7 ≤ hour ∧ hour ≤ 9 then
        if containsAny task_lower ["breakfast", "petit déjeuner"] then
          ["Optimal breakfast time for morning energy"]
        else if containsAny task_lower ["exercise", "gym", "sport"] then
          ["Morning workout boosts metabolism and energy"]
        else if containsAny task_lower ["study", "work", "learn"] then
          ["Morning hours offer peak cognitive performance"]
        else []
      else if 9 ≤ hour ∧ hour ≤ 12 then
        if containsAny task_lower ["study", "work", "project", "code"] then
          ["Peak focus hours for deep work and complex tasks"]
        else if containsAny task_lower ["meeting", "call"] then
          ["Optimal time for collaborative work"]
        else []
      else if 12 ≤ hour ∧ hour ≤ 14 then
        if containsAny task_lower ["lunch", "déjeuner", "repas"] then
          ["Natural midday break for energy replenishment"]
        else []
      else if 14 ≤ hour ∧ hour ≤ 17 then
        if containsAny task_lower ["study", "work"] then
          ["Good afternoon productivity window"]
        else if containsAny task_lower ["meeting", "social"] then
          ["Ideal for collaborative and social activities"]
        else []
      else if 17 ≤ hour ∧ hour ≤ 19 then
        if containsAny task_lower ["exercise", "gym", "sport"] then
          ["Evening workout helps decompress after work"]
        else if containsAny task_lower ["visit", "friend", "social"] then
          ["Perfect time for social activities"]
        else []
      else if 18 ≤ hour ∧ hour ≤ 21 then
        if containsAny task_lower ["dinner", "dîner", "souper"] then
          ["Evening meal time for family and relaxation"]
        else if containsAny task_lower ["visit", "friend"] then
          ["Evening is ideal for social gatherings"]
        else []
      else []
    let priorityLines : List String :=
      if task.priority = "high" ∧ 9 ≤ hour ∧ hour ≤ 12 then
        ["High priority task scheduled during peak hours"]
      else []
    let fitLines : List String :=
      if 3/2 < fit_score then
        ["Perfect fit for this " ++ toString task.duration_minutes ++ "min time slot"]
      else []
    let explanations := timeLines ++ priorityLines ++ fitLines
    if explanations.isEmpty then "Scheduled based on availability and task type"
    else String.intercalate " • " explanations

/-- Embeds `TaskMatcher._schedule_task_in_gap`: the scheduled start is the gap's
start (pre-update); the end is start plus duration, rendered by
`strftime("%H:%M")`, i.e. reduced modulo 24 hours. -/
def schedule_task_in_gap (task : Task) (gap : Gap) (gap_index : Nat) (fit_score : ℚ) :
    ScheduledTask :=
  let start := gap.start_time
  let endm := (start + task.duration_minutes).emod 1440
  { task := task
    start_time := start
    end_time := endm
    gap_index := gap_index
    fit_score := fit_score
    explanation := generate_task_explanation task start fit_score }

/-- Embeds `TaskMatcher._update_gap_after_assignment`: shift the gap's start by the
assigned duration (again via `strftime`, i.e. modulo 24 hours), shrink its
duration, and pop it from the list when no time is left. -/
def update_gap_after_assignment (gaps : List Gap) (gap_index : Nat) (duration : Int) :
    List Gap :=
  match gaps[gap_index]? with
  | none => gaps
  | some gap =>
    let gap' : Gap :=
      { start_time := (gap.start_time + duration).emod 1440
        end_time := gap.end_time
        duration_minutes := gap.duration_minutes - duration }
    if gap'.duration_minutes ≤ 0 then (gaps.set gap_index gap').eraseIdx gap_index
    else gaps.set gap_index gap'

/-- Zero-padded rendering of minutes-since-midnight as `"HH:MM"`. -/
def pad2 (n : Int) : String :=
  if n < 10 then "0" ++ toString n else toString n

/-- Python `strftime("%H:%M")` on a minutes-since-midnight value. -/
def fmtHM (m : Int) : String :=
  pad2 (m / 60) ++ ":" ++ pad2 (m.emod 60)

/-- The fragmentation tip line of `_generate_explanation`, parametrised by
`total_gap_time`. -/
def tip_line (total_gap_time : Int) : String :=
  "\n💡 Tip: You have " ++ toString total_gap_time ++
    " minutes of free time, but it may be fragmented across multiple small gaps."

/-- Embeds `TaskMatcher._generate_explanation`: the textual report; the tip's
`total_gap_time` is summed over `original_gaps`, the caller's gap list. -/
def generate_explanation (scheduled : List ScheduledTask) (unscheduled : List Task)
    (original_gaps : List Gap) : String :=
  let lines1 : List String :=
    if scheduled.isEmpty then []
    else
      ("✅ Successfully scheduled " ++ toString scheduled.length ++ " task(s):")
        :: scheduled.map (fun st =>
          "  • " ++ st.task.title ++ " (" ++ fmtHM st.start_time ++ "-" ++
            fmtHM st.end_time ++ ") [" ++ st.task.priority ++ " priority]")
  let lines2 : List String :=
    if unscheduled.isEmpty then []
    else
      (("\n⚠️ Could not schedule " ++ toString unscheduled.length ++ " task(s):")
        :: unscheduled.map (fun t =>
          "  • " ++ t.title ++ " (" ++ toString t.duration_minutes ++
            "m) - No suitable gap found"))
      ++ [tip_line ((original_gaps.map (fun g => g.duration_minutes)).sum)]
  String.intercalate "\n" (lines1 ++ lines2)

/-- The main loop of `match_tasks_to_gaps` over the prioritized tasks,
threading the mutable `available_gaps` list; returns
`(scheduled, unscheduled, final available_gaps)`. -/
def matchLoop : List Task → List Gap → List ScheduledTask × List Task × List Gap
  | [], gaps => ([], [], gaps)
  | t :: ts, gaps =>
    match find_best_gap t gaps with
    | some (i, g, s) =>
      let st := schedule_task_in_gap t g i s
      let r := matchLoop ts (update_gap_after_assignment gaps i t.duration_minutes)
      (st :: r.1, r.2.1, r.2.2)
    | none =>
      let r := matchLoop ts gaps
      (r.1, t :: r.2.1, r.2.2)

/-- Embeds `TaskMatcher.match_tasks_to_gaps`: early returns for empty inputs, then
prioritize, run the greedy loop on an owned copy of the gaps
(`model_copy(deep=True)` is the identity on values), and assemble the
result; the explanation is generated from the original `gaps`. -/
def match_tasks_to_gaps (tasks : List Task) (gaps : List Gap) : ScheduleResult :=
  if tasks.isEmpty then
    { scheduled_tasks := []
      unscheduled_tasks := []
      explanation := "No tasks to schedule."
      success := true }
  else if gaps.isEmpty then
    { scheduled_tasks := []
      unscheduled_tasks := tasks
      explanation := "No available time gaps found in calendar."
      success := false }
  else
    let sorted_tasks := prioritize_tasks tasks
    let available_gaps := gaps
    let r := matchLoop sorted_tasks available_gaps
    { scheduled_tasks := r.1
      unscheduled_tasks := r.2.1
      explanation := generate_explanation r.1 r.2.1 gaps
      success := r.2.1.isEmpty }

/-! ## `backend/services/free_time_service.py`

Times are in seconds relative to midnight of the (normalized) target day.
`day_start`, `day_end`, `sleep_start`, `sleep_end` are the `parse_time`d
`"HH:MM"` arguments, represented in minutes since midnight (a `Nat`);
events are represented by their parsed `(start, end)` datetimes in seconds
(`'T' in s` ISO strings may lie outside the day; malformed entries, which
the source skips, are simply absent from the list). -/

/-- The `TimeInterval` record of `free_time_service.py` (`start`/`end`
datetimes, in seconds); `end` is called `stop` because `end` is reserved. -/
structure TimeInterval where
  start : Int
  stop : Int
deriving DecidableEq

/-- The `FreeSlot` record of `free_time_service.py`: sequential numeric id
(rendered as `"slot_{i}"`), the slot's bounds (rendered by
`strftime("%H:%M")`), and its duration in whole minutes. -/
structure FreeSlot where
  id : Nat
  start : Int
  stop : Int
  duration_minutes : Int
deriving DecidableEq

/-- The sleep busy intervals (`free_time_service.py` lines 66-86): a sleep
window wrapping midnight (`sleep_start > sleep_end`) is split into an
evening part ending at `23:59:59` and a morning part starting at `00:00`;
otherwise it is a single interval.  These intervals are not clamped to
`[start_dt, end_dt]`. -/
def sleepIntervals (sleep_start sleep_end : Nat) : List TimeInterval :=
  if sleep_end < sleep_start then
    [⟨60 * sleep_start, 86399⟩, ⟨0, 60 * sleep_end⟩]
  else
    [⟨60 * sleep_start, 60 * sleep_end⟩]

/-- The event busy intervals (`free_time_service.py` lines 88-122): each
parsed event is clamped to `[start_dt, end_dt]` and dropped if empty after
clamping. -/
def clampEvents (start_dt end_dt : Int) (events : List (Int × Int)) : List TimeInterval :=
  events.filterMap fun e =>
    let eff_start := max start_dt e.1
    let eff_stop := min end_dt e.2
    if eff_start < eff_stop then some ⟨eff_start, eff_stop⟩ else none

/-- The merge sweep (`free_time_service.py` lines 140-150) over the sorted
busy list: the next interval is absorbed into the current run when its
start is `≤` the current run's end, else the run is emitted. -/
def mergeSweep : TimeInterval → List TimeInterval → List TimeInterval
  | current, [] => [current]
  | current, next :: rest =>
    if next.start ≤ current.stop then
      mergeSweep ⟨current.start, max current.stop next.stop⟩ rest
    else
      current :: mergeSweep next rest

/-- Python `busy_intervals.sort(key=lambda x: x.start)`: Python's stable sort by
start, as `List.insertionSort` by the non-strict comparison. -/
def sortIntervals (l : List TimeInterval) : List TimeInterval :=
  List.insertionSort (fun a b => a.start ≤ b.start) l

/-- The interval merge of `calculate_free_slots` (sort, then sweep). -/
def mergeIntervals (l : List TimeInterval) : List TimeInterval :=
  match sortIntervals l with
  | [] => []
  | c :: rest => mergeSweep c rest

/-- The inversion step (`free_time_service.py` lines 152-183): walk the
merged busy intervals with a cursor, emitting each free fragment of at
least `min_slot_minutes` whole minutes, then the trailing fragment up to
`end_dt`. -/
def invertBusy (min_slot_minutes : Int) : Int → Int → Nat → List TimeInterval →
    List FreeSlot
  | cursor, end_dt, counter, [] =>
    if cursor < end_dt then
      let duration := (end_dt - cursor) / 60
      if min_slot_minutes ≤ duration then [⟨counter, cursor, end_dt, duration⟩] else []
    else []
  | cursor, end_dt, counter, busy :: rest =>
    if cursor < busy.start then
      let duration := (busy.start - cursor) / 60
      if min_slot_minutes ≤ duration then
        ⟨counter, cursor, busy.start, duration⟩ ::
          invertBusy min_slot_minutes (max cursor busy.stop) end_dt (counter + 1) rest
      else invertBusy min_slot_minutes (max cursor busy.stop) end_dt counter rest
    else invertBusy min_slot_minutes (max cursor busy.stop) end_dt counter rest

/-- The body of `calculate_free_slots` after the `start_from_now`
adjustment: collect sleep and clamped event intervals, merge, and invert
(the `if not busy_intervals` branch is kept although sleep always
contributes at least one interval). -/
def freeSlotsCore (events : List (Int × Int)) (start_dt end_dt : Int)
    (sleep_start sleep_end : Nat) (min_slot_minutes : Int) : List FreeSlot :=
  let busy_intervals := sleepIntervals sleep_start sleep_end ++ clampEvents start_dt end_dt events
  if busy_intervals.isEmpty then
    let duration := (end_dt - start_dt) / 60
    if min_slot_minutes ≤ duration then [⟨1, start_dt, end_dt, duration⟩] else []
  else
    invertBusy min_slot_minutes start_dt end_dt 1 (mergeIntervals busy_intervals)

/-- Embeds `calculate_free_slots` (`free_time_service.py` lines 21-183).  `now` is
`datetime.now()` in seconds relative to midnight of the target day; the
target day is the current day exactly when `0 ≤ now < 86400`. -/
def calculate_free_slots (events : List (Int × Int)) (day_start day_end : Nat)
    (sleep_start sleep_end : Nat) (min_slot_minutes : Int) (start_from_now : Bool)
    (now : Int) : List FreeSlot :=
  let start_dt : Int := 60 * day_start
  let end_dt : Int := 60 * day_end
  if start_from_now ∧ 0 ≤ now ∧ now < 86400 then
    let start_dt := if start_dt < now then max start_dt now else start_dt
    if end_dt ≤ start_dt then []
    else freeSlotsCore events start_dt end_dt sleep_start sleep_end min_slot_minutes
  else
    freeSlotsCore events start_dt end_dt sleep_start sleep_end min_slot_minutes

/-- The effective start of the free-time range: `day_start`, adjusted to
`now` by the `start_from_now` branch when the target day is today. -/
def effectiveStart (day_start : Nat) (start_from_now : Bool) (now : Int) : Int :=
  let start_dt : Int := 60 * day_start
  if start_from_now ∧ 0 ≤ now ∧ now < 86400 then
    if start_dt < now then max start_dt now else start_dt
  else start_dt

/-- The merged busy sequence a call to `calculate_free_slots` works with. -/
def mergedBusyOf (events : List (Int × Int)) (day_start day_end : Nat)
    (sleep_start sleep_end : Nat) (start_from_now : Bool) (now : Int) : List TimeInterval :=
  mergeIntervals
    (sleepIntervals sleep_start sleep_end ++
      clampEvents (effectiveStart day_start start_from_now now) (60 * day_end) events)

/-- All candidate free fragments of the inversion walk, before the
`min_slot_minutes` filter (the ones below the threshold are the discarded
fragments). -/
def freeCandidates : Int → Int → List TimeInterval → List TimeInterval
  | cursor, end_dt, [] => if cursor < end_dt then [⟨cursor, end_dt⟩] else []
  | cursor, end_dt, busy :: rest =>
    if cursor < busy.start then
      ⟨cursor, busy.start⟩ :: freeCandidates (max cursor busy.stop) end_dt rest
    else freeCandidates (max cursor busy.stop) end_dt rest

/-- The fragments the inversion walk drops for being below
`min_slot_minutes`. -/
def discardedFragments (min_slot_minutes : Int) (cursor end_dt : Int)
    (merged : List TimeInterval) : List TimeInterval :=
  (freeCandidates cursor end_dt merged).filter
    (fun c => ¬ min_slot_minutes ≤ (c.stop - c.start) / 60)

/-- Membership of a time point in an interval (half-open). -/
def ivContains (t : Int) (iv : TimeInterval) : Bool :=
  decide (iv.start ≤ t) && decide (t < iv.stop)

/-- Membership of a time point in a free slot (half-open). -/
def slotContains (t : Int) (s : FreeSlot) : Bool :=
  decide (s.start ≤ t) && decide (t < s.stop)

/-! ## Concrete fixtures used by the theorems below -/

/-- A 60-minute low-priority task titled "breakfast". -/
def bfastTask : Task := ⟨"1", "breakfast", 60, "low", none, none, none⟩

/-- A gap starting at 20:00 with exactly 60 minutes. -/
def eveningGap : Gap := ⟨1200, 1260, 60⟩

/-- A task titled "breakfast" with an explicit `evening` preference. -/
def bfastEveningTask : Task := ⟨"1", "breakfast", 60, "medium", none, some "evening", none⟩

/-- A keyword-free task with an explicit `evening` preference. -/
def plainEveningTask : Task := ⟨"1", "aaa", 60, "medium", none, some "evening", none⟩

/-- A keyword-free 30-minute high-priority task. -/
def taskA : Task := ⟨"1", "aaa", 30, "high", none, none, none⟩

/-- A keyword-free 60-minute high-priority task. -/
def taskB : Task := ⟨"2", "bbb", 60, "high", none, none, none⟩

/-- A 30-minute gap at 09:00. -/
def gapAt9 : Gap := ⟨540, 570, 30⟩

/-- A 60-minute gap at 14:00. -/
def gapAt14 : Gap := ⟨840, 900, 60⟩

/-- A keyword-free 120-minute high-priority task. -/
def lateTask : Task := ⟨"1", "aaa", 120, "high", none, none, none⟩

/-- A gap at 23:00 recorded with 120 minutes (crossing midnight). -/
def lateGap : Gap := ⟨1380, 1439, 120⟩

/-- A task with `duration_minutes = 0`. -/
def zeroTask : Task := ⟨"1", "aaa", 0, "low", none, none, none⟩

/-- A keyword-free 60-minute high-priority task used for witnesses; its
`reasoning` field short-circuits the explanation generator. -/
def fitTask : Task := ⟨"1", "aaa", 60, "high", none, none, some "r"⟩

/-- A 60-minute gap at 09:00. -/
def fitGap : Gap := ⟨540, 600, 60⟩

/-- A 2000-minute task that fits no gap. -/
def hugeTask : Task := ⟨"1", "aaa", 2000, "low", none, none, none⟩

/-! ## Theorems -/

/-- C2.  The spec says keyword classification is applied only when
`time_preference` is absent.  In the code, the keyword chain runs after the
`time_preference` block and overwrites its boost: for a task titled
"breakfast" with `time_preference = "evening"` and a gap starting at 19:00
(inside the evening range 17-21, so the preference alone yields `+2.0`, as
the keyword-free variant shows), the computed `time_boost` is the breakfast
keyword penalty `-10.0`. -/
theorem keyword_overrides_time_preference :
    bfastEveningTask.time_preference = some "evening" ∧
    (17 ≤ (19 : Int) ∧ (19 : Int) ≤ 21) ∧
    timeBoostOf plainEveningTask 19 = 2 ∧
    timeBoostOf bfastEveningTask 19 = -10 := by
  refine ⟨rfl, by decide, by decide, by decide⟩

/-- C10.  `gap_index` is the chosen gap's position in the working list at
assignment time; since exhausted gaps are popped, two tasks placed in the
two distinct original gaps (starting 09:00 and 14:00) both record
`gap_index = 0`. -/
theorem gap_index_not_original_identity :
    (match_tasks_to_gaps [taskA, taskB] [gapAt9, gapAt14]).scheduled_tasks.map
        (fun st => (st.gap_index, st.start_time)) = [(0, 540), (0, 840)] ∧
    gapAt9.start_time ≠ gapAt14.start_time := by
  constructor
  · with_unfolding_all decide
  · decide

/-- C8 (counterexample).  The claim quantifies over every task and every
qualifying gap; for a task with `duration_minutes = 0` and a 60-minute gap
the gap qualifies (`60 ≥ 0`) but the efficiency term is `0`, outside
`(0, 1]`. -/
theorem efficiency_zero_cex :
    zeroTask.duration_minutes ≤ eveningGap.duration_minutes ∧
    efficiencyScore zeroTask eveningGap = 0 ∧
    ¬ (0 < efficiencyScore zeroTask eveningGap) := by
  refine ⟨by decide, ?_, ?_⟩ <;> with_unfolding_all decide

/-- C8 (amended).  For every task with positive duration (the validation
layer enforces 5-480 minutes) and every qualifying gap, the efficiency
divisor `gap.duration_minutes` is nonzero and the efficiency term lies in
`(0, 1]`. -/
theorem efficiency_in_unit_interval (task : Task) (gap : Gap)
    (ht : 0 < task.duration_minutes)
    (hq : task.duration_minutes ≤ gap.duration_minutes) :
    gap.duration_minutes ≠ 0 ∧
    0 < efficiencyScore task gap ∧ efficiencyScore task gap ≤ 1 := by
  have hg : 0 < gap.duration_minutes := lt_of_lt_of_le ht hq
  have hgQ : (0 : ℚ) < (gap.duration_minutes : ℚ) := by exact_mod_cast hg
  have htQ : (0 : ℚ) < (task.duration_minutes : ℚ) := by exact_mod_cast ht
  have hqQ : (task.duration_minutes : ℚ) ≤ (gap.duration_minutes : ℚ) := by exact_mod_cast hq
  have heff : efficiencyScore task gap =
      (task.duration_minutes : ℚ) / (gap.duration_minutes : ℚ) := by
    unfold efficiencyScore
    push_cast
    field_simp
  refine ⟨by omega, ?_, ?_⟩
  · rw [heff]; exact div_pos htQ hgQ
  · rw [heff]; exact (div_le_one hgQ).mpr hqQ

/-- C8 (witness): the amended theorem at a 30-minute task and a qualifying
45-minute gap. -/
theorem efficiency_in_unit_interval_witness :
    (⟨720, 765, 45⟩ : Gap).duration_minutes ≠ 0 ∧
    0 < efficiencyScore ⟨"1", "aaa", 30, "low", none, none, none⟩ ⟨720, 765, 45⟩ ∧
    efficiencyScore ⟨"1", "aaa", 30, "low", none, none, none⟩ ⟨720, 765, 45⟩ ≤ 1 :=
  efficiency_in_unit_interval ⟨"1", "aaa", 30, "low", none, none, none⟩ ⟨720, 765, 45⟩
    (by decide) (by decide)

/-- C4 (counterexample).  The claim quantifies over every call.  With
`start_from_now = false` the early-return check is skipped entirely: for
`day_start = 23:00`, `day_end = 08:00` (so `effective_start ≥ day_end`) and
a sleep block 23:30-23:45, the call returns the 23:00-23:30 slot instead of
the empty sequence. -/
theorem effective_start_past_day_end_cex :
    60 * (480 : Int) ≤ effectiveStart 1380 false 0 ∧
    calculate_free_slots [] 1380 480 1410 1425 15 false 0 =
      [⟨1, 82800, 84600, 30⟩] := by
  exact ⟨by decide, by decide⟩

/-- C4 (amended).  The `effective_start ≥ day_end` early return exists only
on the `start_from_now` path: when `start_from_now` is set and the target
day is the current day, an effective start at or past `day_end` yields the
empty sequence. -/
theorem start_from_now_past_day_end_empty (events : List (Int × Int))
    (day_start day_end sleep_start sleep_end : Nat) (min_slot_minutes : Int)
    (now : Int) (h0 : 0 ≤ now) (h1 : now < 86400)
    (h2 : 60 * (day_end : Int) ≤ effectiveStart day_start true now) :
    calculate_free_slots events day_start day_end sleep_start sleep_end
      min_slot_minutes true now = [] := by
  unfold calculate_free_slots
  unfold effectiveStart at h2
  rw [if_pos ⟨rfl, h0, h1⟩] at h2
  rw [if_pos ⟨rfl, h0, h1⟩]
  rw [if_pos]
  exact h2

/-- C4 (witness): the amended theorem with `now = 23:59:59` against the
default day bounds. -/
theorem start_from_now_past_day_end_empty_witness :
    calculate_free_slots [] 0 1439 1380 420 15 true 86399 = [] :=
  start_from_now_past_day_end_empty [] 0 1439 1380 420 15 86399
    (by decide) (by decide) (by decide)

/-- C7 (counterexample).  The claim quantifies over every `ScheduledTask`
produced by `match_tasks_to_gaps`.  For a gap recorded as starting at 23:00
with 120 minutes, the scheduled end time `01:00` is produced by
`strftime("%H:%M")` after crossing midnight, so `end - start = -1320`, not
the task's 120 minutes. -/
theorem scheduled_end_minus_start_cex :
    (match_tasks_to_gaps [lateTask] [lateGap]).scheduled_tasks.map
        (fun st => st.end_time - st.start_time) = [-1320] ∧
    lateTask.duration_minutes = 120 ∧ ((-1320 : Int) ≠ 120) := by
  refine ⟨?_, by decide, by decide⟩
  with_unfolding_all decide

/-- Every element of the scheduled list produced by the matching loop is
literally a `schedule_task_in_gap` record. -/
theorem mem_matchLoop_scheduled {ts : List Task} {gaps : List Gap} {st : ScheduledTask}
    (h : st ∈ (matchLoop ts gaps).1) :
    ∃ t g i s, st = schedule_task_in_gap t g i s := by
  induction ts generalizing gaps with
  | nil => simp [matchLoop] at h
  | cons t ts ih =>
    rcases hf : find_best_gap t gaps with _ | ⟨i, g, s⟩
    · rw [matchLoop, hf] at h
      exact ih h
    · rw [matchLoop, hf] at h
      rcases List.mem_cons.mp h with h | h
      · exact ⟨t, g, i, s, h⟩
      · exact ih h

/-- C7 (amended).  Every `ScheduledTask` produced by `match_tasks_to_gaps`
has `end = start + duration` reduced modulo 24 hours (the `strftime`
rendering); `end - start` equals the task's duration exactly whenever
`start + duration` does not cross midnight — in particular for every gap
produced by the free-slot computer, whose slots end by 23:59. -/
theorem scheduled_end_start_duration (tasks : List Task) (gaps : List Gap)
    (st : ScheduledTask)
    (h : st ∈ (match_tasks_to_gaps tasks gaps).scheduled_tasks) :
    st.end_time = (st.start_time + st.task.duration_minutes).emod 1440 ∧
    (0 ≤ st.start_time + st.task.duration_minutes →
      st.start_time + st.task.duration_minutes < 1440 →
      st.end_time - st.start_time = st.task.duration_minutes) := by
  have hmem : ∃ t g i s, st = schedule_task_in_gap t g i s := by
    cases tasks with
    | nil => simp [match_tasks_to_gaps] at h
    | cons t ts =>
      cases gaps with
      | nil => simp [match_tasks_to_gaps] at h
      | cons g gs =>
        simp only [match_tasks_to_gaps, List.isEmpty_cons] at h
        exact mem_matchLoop_scheduled h
  obtain ⟨t, g, i, s, rfl⟩ := hmem
  refine ⟨rfl, fun h0 h1 => ?_⟩
  have h0' : 0 ≤ g.start_time + t.duration_minutes := h0
  have h1' : g.start_time + t.duration_minutes < 1440 := h1
  show (g.start_time + t.duration_minutes) % 1440 - g.start_time = t.duration_minutes
  omega

set_option maxRecDepth 8000 in
/-- C7 (witness): the amended theorem at a 60-minute task scheduled in the
60-minute gap at 09:00 (fit score `1 + 1 + 1/5`). -/
theorem scheduled_end_start_duration_witness :
    (schedule_task_in_gap fitTask fitGap 0 (11/5)).end_time =
      ((schedule_task_in_gap fitTask fitGap 0 (11/5)).start_time +
        (schedule_task_in_gap fitTask fitGap 0 (11/5)).task.duration_minutes).emod 1440 ∧
    (schedule_task_in_gap fitTask fitGap 0 (11/5)).end_time -
      (schedule_task_in_gap fitTask fitGap 0 (11/5)).start_time =
      (schedule_task_in_gap fitTask fitGap 0 (11/5)).task.duration_minutes := by
  have h := scheduled_end_start_duration [fitTask] [fitGap]
    (schedule_task_in_gap fitTask fitGap 0 (11/5)) (by with_unfolding_all decide)
  exact ⟨h.1, h.2 (by decide) (by decide)⟩

/-- C9.  The matcher consumes only its owned working copy of the gaps (the
embedding threads that copy explicitly, leaving the input list untouched),
and the fragmentation tip emitted whenever some task is unscheduled states
the total of `duration_minutes` over the caller's original gap sequence. -/
theorem tip_uses_original_gaps (tasks : List Task) (gaps : List Gap)
    (ht : tasks ≠ []) (hg : gaps ≠ [])
    (hu : (match_tasks_to_gaps tasks gaps).unscheduled_tasks ≠ []) :
    ∃ ls : List String,
      (match_tasks_to_gaps tasks gaps).explanation = String.intercalate "\n" ls ∧
      tip_line ((gaps.map (fun g => g.duration_minutes)).sum) ∈ ls := by
  cases tasks with
  | nil => exact absurd rfl ht
  | cons t ts =>
    cases gaps with
    | nil => exact absurd rfl hg
    | cons g gs =>
      simp only [match_tasks_to_gaps, List.isEmpty_cons] at hu ⊢
      simp only [generate_explanation]
      refine ⟨_, rfl, List.mem_append_right _ ?_⟩
      have hu' : ((matchLoop (prioritize_tasks (t :: ts)) (g :: gs)).2.1).isEmpty = false := by
        rw [List.isEmpty_eq_false_iff_exists_mem]
        rcases hx : (matchLoop (prioritize_tasks (t :: ts)) (g :: gs)).2.1 with _ | ⟨x, xs⟩
        · exact absurd hx hu
        · exact ⟨x, List.mem_cons_self x xs⟩
      rw [hu']
      simp

/-- C9 (witness): a 2000-minute task against a single 60-minute gap leaves
the task unscheduled and the tip reports the original 60 free minutes. -/
theorem tip_uses_original_gaps_witness :
    ∃ ls : List String,
      (match_tasks_to_gaps [hugeTask] [fitGap]).explanation = String.intercalate "\n" ls ∧
      tip_line (([fitGap].map (fun g => g.duration_minutes)).sum) ∈ ls :=
  tip_uses_original_gaps [hugeTask] [fitGap] (by decide) (by decide)
    (by with_unfolding_all decide)

theorem filter_orderedInsert_neg {α : Type _} (r : α → α → Prop) [DecidableRel r]
    (p : α → Bool) (a : α) (l : List α) (hpa : p a = false) :
    (List.orderedInsert r a l).filter p = l.filter p := by
  induction l with
  | nil => simp [hpa]
  | cons b t ih =>
    by_cases hr : r a b
    · simp [List.orderedInsert, hr, hpa]
    · simp only [List.orderedInsert, if_neg hr, List.filter_cons]
      by_cases hpb : p b <;> simp [hpb, ih]

theorem filter_orderedInsert_pos {α : Type _} (r : α → α → Prop) [DecidableRel r]
    (p : α → Bool) (a : α) (l : List α) (hpa : p a = true)
    (h : ∀ b ∈ l, p b = true → r a b) :
    (List.orderedInsert r a l).filter p = a :: l.filter p := by
  induction l with
  | nil => simp [hpa]
  | cons b t ih =>
    by_cases hr : r a b
    · simp [List.orderedInsert, hr, hpa]
    · have hpb : p b = false := by
        rcases hb : p b with _ | _
        · rfl
        · exact absurd (h b (List.mem_cons_self b t) hb) hr
      simp only [List.orderedInsert, if_neg hr, List.filter_cons, hpb, Bool.false_eq_true,
        if_false]
      exact ih (fun x hx hpx => h x (List.mem_cons_of_mem b hx) hpx)

/-- A stable sort leaves every equivalence class of the comparison in its
original order: filtering by a class (`p` selects mutually `r`-related
elements) commutes with `insertionSort`. -/
theorem filter_insertionSort {α : Type _} (r : α → α → Prop) [DecidableRel r]
    (p : α → Bool) (hp : ∀ x y, p x = true → p y = true → r x y) (l : List α) :
    (List.insertionSort r l).filter p = l.filter p := by
  induction l with
  | nil => rfl
  | cons a t ih =>
    simp only [List.insertionSort]
    by_cases hpa : p a
    · rw [filter_orderedInsert_pos r p a _ hpa
        (fun b _ hpb => hp a b hpa hpb), ih, List.filter_cons_of_pos hpa]
    · rw [filter_orderedInsert_neg r p a _ (by simpa using hpa), ih,
        List.filter_cons_of_neg (by simpa using hpa)]

theorem dLe_total (a b : Option Int) : dLe a b ∨ dLe b a := by
  rcases a with _ | x <;> rcases b with _ | y
  · exact Or.inl trivial
  · exact Or.inr trivial
  · exact Or.inl trivial
  · exact (le_total x y).imp id id

theorem dLe_trans {a b c : Option Int} (h1 : dLe a b) (h2 : dLe b c) : dLe a c := by
  rcases a with _ | x <;> rcases b with _ | y <;> rcases c with _ | z <;>
    first
    | exact trivial
    | exact absurd h1 (fun h => h)
    | exact absurd h2 (fun h => h)
    | exact le_trans (α := Int) h1 h2

instance : IsTotal Task taskLe := by
  constructor
  intro a b
  unfold taskLe keyLe
  rcases lt_trichotomy (sort_key a).1 (sort_key b).1 with h | h | h
  · exact Or.inl (Or.inl h)
  · exact (dLe_total (sort_key a).2 (sort_key b).2).imp
      (fun hd => Or.inr ⟨h, hd⟩) (fun hd => Or.inr ⟨h.symm, hd⟩)
  · exact Or.inr (Or.inl h)

instance : IsTrans Task taskLe := by
  constructor
  intro a b c hab hbc
  unfold taskLe keyLe at *
  rcases hab with h1 | ⟨h1, d1⟩ <;> rcases hbc with h2 | ⟨h2, d2⟩
  · exact Or.inl (lt_trans h1 h2)
  · exact Or.inl (h2 ▸ h1)
  · exact Or.inl (h1 ▸ h2)
  · exact Or.inr ⟨h1.trans h2, dLe_trans d1 d2⟩

/-- C6.  `_prioritize_tasks` is the stable sort by the composite key
`(-priority_weight, deadline_or_+inf)`: the output is sorted by the key
comparison; tasks sharing a priority weight and lacking a parseable
deadline keep their original relative order (filtering by such a class
commutes with the sort); an unparseable deadline string contributes `+inf`
(`none`) to the key exactly like a missing deadline; and the weights are
`high = 3`, `medium = 2`, `low = 1`. -/
theorem prioritize_stable_sort :
    (∀ ts : List Task, List.Sorted taskLe (prioritize_tasks ts)) ∧
    (∀ (ts : List Task) (w : ℚ),
      (prioritize_tasks ts).filter
          (fun t => decide (priorityWeight (strLower t.priority) = w) &&
            decide (deadline_score t = none)) =
        ts.filter
          (fun t => decide (priorityWeight (strLower t.priority) = w) &&
            decide (deadline_score t = none))) ∧
    (∀ t : Task, t.deadline = some none →
      sort_key t = (-(priorityWeight (strLower t.priority)), none)) ∧
    priorityWeight "high" = 3 ∧ priorityWeight "medium" = 2 ∧ priorityWeight "low" = 1 := by
  refine ⟨fun ts => List.sorted_insertionSort taskLe ts, ?_, ?_, rfl, rfl, rfl⟩
  · intro ts w
    apply filter_insertionSort
    intro x y hx hy
    simp only [Bool.and_eq_true, decide_eq_true_eq] at hx hy
    unfold taskLe keyLe sort_key
    exact Or.inr ⟨by rw [hx.1, hy.1], by rw [hx.2, hy.2]; trivial⟩
  · intro t h
    unfold sort_key deadline_score
    rw [h]

/-- C6 (witness): the key of a task with an unparseable deadline string
equals the key with no deadline. -/
theorem prioritize_stable_sort_witness :
    sort_key ⟨"1", "x", 30, "medium", some none, none, none⟩ =
      (-(priorityWeight (strLower "medium")), none) :=
  prioritize_stable_sort.2.2.1 ⟨"1", "x", 30, "medium", some none, none, none⟩ rfl

instance : IsTotal TimeInterval (fun a b => a.start ≤ b.start) :=
  ⟨fun a b => le_total a.start b.start⟩

instance : IsTrans TimeInterval (fun a b => a.start ≤ b.start) :=
  ⟨fun _ _ _ h1 h2 => le_trans h1 h2⟩

/-- The sweep keeps the start of the current run and only grows its end. -/
theorem mergeSweep_head (c : TimeInterval) (l : List TimeInterval) :
    ∃ s tail, mergeSweep c l = ⟨c.start, s⟩ :: tail ∧ c.stop ≤ s := by
  induction l generalizing c with
  | nil => exact ⟨c.stop, [], rfl, le_refl _⟩
  | cons n rest ih =>
    rw [mergeSweep]
    by_cases h : n.start ≤ c.stop
    · rw [if_pos h]
      obtain ⟨s, tail, heq, hle⟩ := ih ⟨c.start, max c.stop n.stop⟩
      exact ⟨s, tail, heq, le_trans (le_max_left _ _) hle⟩
    · rw [if_neg h]
      exact ⟨c.stop, mergeSweep n rest, rfl, le_refl _⟩

/-- Every run emitted by the sweep starts no earlier than the current run,
provided the input is sorted by start. -/
theorem mergeSweep_start_lb (c : TimeInterval) (l : List TimeInterval)
    (h : List.Sorted (fun a b => a.start ≤ b.start) (c :: l)) :
    ∀ x ∈ mergeSweep c l, c.start ≤ x.start := by
  induction l generalizing c with
  | nil =>
    intro x hx
    rw [mergeSweep, List.mem_singleton] at hx
    exact hx ▸ le_refl _
  | cons n rest ih =>
    intro x hx
    rw [mergeSweep] at hx
    by_cases hc : n.start ≤ c.stop
    · rw [if_pos hc] at hx
      have hs : List.Sorted (fun a b => a.start ≤ b.start)
          (TimeInterval.mk c.start (max c.stop n.stop) :: rest) := by
        rw [List.sorted_cons] at h ⊢
        exact ⟨fun b hb => h.1 b (List.mem_cons_of_mem n hb), h.2.of_cons⟩
      exact ih _ hs x hx
    · rw [if_neg hc] at hx
      rcases List.mem_cons.mp hx with rfl | hx
      · exact le_refl _
      · have hcn : c.start ≤ n.start := (List.sorted_cons.mp h).1 n (List.mem_cons_self n rest)
        have hs : List.Sorted (fun a b => a.start ≤ b.start) (n :: rest) :=
          (List.sorted_cons.mp h).2
        exact le_trans hcn (ih n hs x hx)

/-- The sweep's output is sorted by start when its input is. -/
theorem mergeSweep_sorted (c : TimeInterval) (l : List TimeInterval)
    (h : List.Sorted (fun a b => a.start ≤ b.start) (c :: l)) :
    List.Sorted (fun a b => a.start ≤ b.start) (mergeSweep c l) := by
  induction l generalizing c with
  | nil => simp [mergeSweep]
  | cons n rest ih =>
    rw [mergeSweep]
    by_cases hc : n.start ≤ c.stop
    · rw [if_pos hc]
      apply ih
      rw [List.sorted_cons] at h ⊢
      exact ⟨fun b hb => h.1 b (List.mem_cons_of_mem n hb), h.2.of_cons⟩
    · rw [if_neg hc]
      rw [List.sorted_cons]
      have hs : List.Sorted (fun a b => a.start ≤ b.start) (n :: rest) :=
        (List.sorted_cons.mp h).2
      refine ⟨fun b hb => ?_, ih n hs⟩
      have hcn : c.start ≤ n.start := (List.sorted_cons.mp h).1 n (List.mem_cons_self n rest)
      exact le_trans hcn (mergeSweep_start_lb n rest hs b hb)

/-- Adjacent runs emitted by the sweep are separated: each run's end lies
strictly before the next run's start. -/
theorem mergeSweep_chain (c : TimeInterval) (l : List TimeInterval)
    (h : List.Sorted (fun a b => a.start ≤ b.start) (c :: l)) :
    List.Chain' (fun a b => a.stop < b.start) (mergeSweep c l) := by
  induction l generalizing c with
  | nil => simp [mergeSweep]
  | cons n rest ih =>
    rw [mergeSweep]
    by_cases hc : n.start ≤ c.stop
    · rw [if_pos hc]
      apply ih
      rw [List.sorted_cons] at h ⊢
      exact ⟨fun b hb => h.1 b (List.mem_cons_of_mem n hb), h.2.of_cons⟩
    · rw [if_neg hc]
      have hs : List.Sorted (fun a b => a.start ≤ b.start) (n :: rest) :=
        (List.sorted_cons.mp h).2
      obtain ⟨s, tail, heq, _⟩ := mergeSweep_head n rest
      rw [heq]
      exact List.Chain'.cons (show c.stop < (TimeInterval.mk n.start s).start from
        lt_of_not_ge hc) (heq ▸ ih n hs)

/-- On a separated list the sweep is the identity. -/
theorem mergeSweep_sep_id (c : TimeInterval) (l : List TimeInterval)
    (h : List.Chain' (fun a b => a.stop < b.start) (c :: l)) :
    mergeSweep c l = c :: l := by
  induction l generalizing c with
  | nil => rfl
  | cons n rest ih =>
    have hcn : c.stop < n.start := (List.chain'_cons.mp h).1
    rw [mergeSweep, if_neg (not_le.mpr hcn)]
    rw [ih n (List.chain'_cons.mp h).2]

/-- The merge `mergeIntervals` is the identity on a sorted, separated list. -/
theorem mergeIntervals_fixed (M : List TimeInterval)
    (hs : List.Sorted (fun a b => a.start ≤ b.start) M)
    (hc : List.Chain' (fun a b => a.stop < b.start) M) :
    mergeIntervals M = M := by
  unfold mergeIntervals sortIntervals
  rw [List.Sorted.insertionSort_eq hs]
  cases M with
  | nil => rfl
  | cons c r => exact mergeSweep_sep_id c r hc

/-- The output of `mergeIntervals` is sorted by start. -/
theorem mergeIntervals_sorted (X : List TimeInterval) :
    List.Sorted (fun a b => a.start ≤ b.start) (mergeIntervals X) := by
  unfold mergeIntervals
  cases hs : sortIntervals X with
  | nil => simp
  | cons c rest =>
    exact mergeSweep_sorted c rest (hs ▸ List.sorted_insertionSort _ X)

/-- The output of `mergeIntervals` is separated. -/
theorem mergeIntervals_chain (X : List TimeInterval) :
    List.Chain' (fun a b => a.stop < b.start) (mergeIntervals X) := by
  unfold mergeIntervals
  cases hs : sortIntervals X with
  | nil => simp
  | cons c rest =>
    exact mergeSweep_chain c rest (hs ▸ List.sorted_insertionSort _ X)

/-- C5.  The interval merge (sort ascending by start, then absorb each
interval into the current run when its start is at most the current run's
end) is idempotent on every interval list. -/
theorem merge_idempotent (X : List TimeInterval) :
    mergeIntervals (mergeIntervals X) = mergeIntervals X :=
  mergeIntervals_fixed (mergeIntervals X) (mergeIntervals_sorted X) (mergeIntervals_chain X)

theorem lt_length_of_getElem? {α : Type _} {l : List α} {j : Nat} {x : α}
    (h : l[j]? = some x) : j < l.length := by
  by_contra hc
  rw [List.getElem?_eq_none (le_of_not_lt hc)] at h
  cases h

theorem getElem?_snoc_cases {α : Type _} {l : List α} {a x : α} {j : Nat}
    (h : (l ++ [a])[j]? = some x) :
    l[j]? = some x ∨ (j = l.length ∧ x = a) := by
  by_cases hj : j < l.length
  · left
    rw [List.getElem?_append_left hj] at h
    exact h
  · right
    have hj' : l.length ≤ j := le_of_not_lt hj
    rw [List.getElem?_append_right hj'] at h
    rcases hd : j - l.length with _ | k
    · rw [hd] at h
      simp only [List.getElem?_cons_zero, Option.some.injEq] at h
      exact ⟨by omega, h.symm⟩
    · rw [hd] at h
      simp at h

theorem getElem?_snoc_length {α : Type _} (l : List α) (a : α) :
    (l ++ [a])[l.length]? = some a := by
  rw [List.getElem?_append_right (le_refl _)]
  simp

/-- Extending the processed prefix with a non-qualifying gap preserves the
`_find_best_gap` loop invariant. -/
theorem FindState.snoc_notqual {task : Task} {p : List Gap}
    {best : Option (Nat × Gap × ℚ)} {bs : ℚ} {g : Gap}
    (h : FindState task p best bs)
    (hq : ¬ task.duration_minutes ≤ g.duration_minutes) :
    FindState task (p ++ [g]) best bs := by
  cases best with
  | none =>
    obtain ⟨h1, h2⟩ := h
    refine ⟨h1, fun j g' hj hq' => ?_⟩
    rcases getElem?_snoc_cases hj with hj' | ⟨rfl, rfl⟩
    · exact h2 j g' hj' hq'
    · exact absurd hq' hq
  | some b =>
    obtain ⟨i, gg, s⟩ := b
    obtain ⟨h1, h2, h3, h4, h5, h6, h7⟩ := h
    have hi : i < p.length := lt_length_of_getElem? h2
    refine ⟨h1, by rw [List.getElem?_append_left hi]; exact h2, h3, h4, h5, ?_, ?_⟩
    · intro j g' hj hq'
      rcases getElem?_snoc_cases hj with hj' | ⟨rfl, rfl⟩
      · exact h6 j g' hj' hq'
      · exact absurd hq' hq
    · intro j g' hji hj hq'
      rcases getElem?_snoc_cases hj with hj' | ⟨rfl, rfl⟩
      · exact h7 j g' hji hj' hq'
      · exact absurd hq' hq

/-- Extending the processed prefix with a qualifying gap whose score does
not beat the running best preserves the loop invariant. -/
theorem FindState.snoc_qual_le {task : Task} {p : List Gap}
    {best : Option (Nat × Gap × ℚ)} {bs : ℚ} {g : Gap}
    (h : FindState task p best bs)
    (hq : task.duration_minutes ≤ g.duration_minutes)
    (hle : calculate_fit_score task g ≤ bs) :
    FindState task (p ++ [g]) best bs := by
  cases best with
  | none =>
    obtain ⟨h1, h2⟩ := h
    refine ⟨h1, fun j g' hj hq' => ?_⟩
    rcases getElem?_snoc_cases hj with hj' | ⟨rfl, rfl⟩
    · exact h2 j g' hj' hq'
    · exact hle.trans (le_of_eq h1)
  | some b =>
    obtain ⟨i, gg, s⟩ := b
    obtain ⟨h1, h2, h3, h4, h5, h6, h7⟩ := h
    have hi : i < p.length := lt_length_of_getElem? h2
    refine ⟨h1, by rw [List.getElem?_append_left hi]; exact h2, h3, h4, h5, ?_, ?_⟩
    · intro j g' hj hq'
      rcases getElem?_snoc_cases hj with hj' | ⟨rfl, rfl⟩
      · exact h6 j g' hj' hq'
      · exact hle.trans (le_of_eq h1)
    · intro j g' hji hj hq'
      rcases getElem?_snoc_cases hj with hj' | ⟨heq, rfl⟩
      · exact h7 j g' hji hj' hq'
      · exact absurd hji (by omega)

/-- Extending the processed prefix with a qualifying gap that strictly
beats the running best moves the invariant to the new first-seen maximum. -/
theorem FindState.snoc_qual_gt {task : Task} {p : List Gap}
    {best : Option (Nat × Gap × ℚ)} {bs : ℚ} {g : Gap}
    (h : FindState task p best bs)
    (hq : task.duration_minutes ≤ g.duration_minutes)
    (hgt : bs < calculate_fit_score task g) :
    FindState task (p ++ [g]) (some (p.length, g, calculate_fit_score task g))
      (calculate_fit_score task g) := by
  have hbs : -1 ≤ bs := by
    cases best with
    | none => exact le_of_eq h.1.symm
    | some b =>
      obtain ⟨i, gg, s⟩ := b
      exact le_of_lt (h.1 ▸ h.2.2.2.2.1)
  have hub : ∀ (j : Nat) (g' : Gap), p[j]? = some g' →
      task.duration_minutes ≤ g'.duration_minutes →
      calculate_fit_score task g' ≤ bs := by
    cases best with
    | none =>
      intro j g' hj hq'
      exact (h.2 j g' hj hq').trans (le_of_eq h.1.symm)
    | some b =>
      obtain ⟨i, gg, s⟩ := b
      intro j g' hj hq'
      exact (h.2.2.2.2.2.1 j g' hj hq').trans (le_of_eq h.1.symm)
  refine ⟨rfl, getElem?_snoc_length p g, hq, rfl, lt_of_le_of_lt hbs hgt, ?_, ?_⟩
  · intro j g' hj hq'
    rcases getElem?_snoc_cases hj with hj' | ⟨rfl, rfl⟩
    · exact (hub j g' hj' hq').trans (le_of_lt hgt)
    · exact le_refl _
  · intro j g' hji hj hq'
    rcases getElem?_snoc_cases hj with hj' | ⟨heq, rfl⟩
    · exact lt_of_le_of_lt (hub j g' hj' hq') hgt
    · exact absurd hji (by omega)

/-- The `_find_best_gap` loop maintains its invariant across the remaining
gap list. -/
theorem findLoop_state (task : Task) (gs : List Gap) :
    ∀ (p : List Gap) (best : Option (Nat × Gap × ℚ)) (bs : ℚ),
      FindState task p best bs →
      ∃ bs', FindState task (p ++ gs) (findLoop task gs p.length best bs) bs' := by
  induction gs with
  | nil =>
    intro p best bs h
    exact ⟨bs, by simpa using h⟩
  | cons g rest ih =>
    intro p best bs h
    rw [findLoop]
    by_cases hq : task.duration_minutes ≤ g.duration_minutes
    · simp only [if_pos hq]
      by_cases hgt : bs < calculate_fit_score task g
      · rw [if_pos hgt]
        have h' := FindState.snoc_qual_gt h hq hgt
        have hrec := ih (p ++ [g]) _ _ h'
        rw [List.length_append] at hrec
        simpa using hrec
      · rw [if_neg hgt]
        have h' := FindState.snoc_qual_le h hq (le_of_not_lt hgt)
        have hrec := ih (p ++ [g]) best bs h'
        rw [List.length_append] at hrec
        simpa using hrec
    · rw [if_neg hq]
      have h' := FindState.snoc_notqual h hq
      have hrec := ih (p ++ [g]) best bs h'
      rw [List.length_append] at hrec
      simpa using hrec

/-- Theorem: `_find_best_gap` satisfies its loop invariant on the whole gap list. -/
theorem find_best_gap_state (task : Task) (gaps : List Gap) :
    ∃ bs', FindState task gaps (find_best_gap task gaps) bs' := by
  have h0 : FindState task [] none (-1) :=
    ⟨rfl, fun j g hj _ => by simp at hj⟩
  have h := findLoop_state task gaps [] none (-1) h0
  simpa [find_best_gap] using h

/-- C1 (amended).  `_find_best_gap` returns `None` exactly when every
qualifying gap scores at most the `-1` sentinel (in particular when no gap
qualifies); a returned match is a qualifying gap achieving the maximum
score among qualifying gaps, strictly above `-1`, with ties broken by the
lowest index; and the matching loop schedules the current task exactly on a
returned match, appending it to `unscheduled` otherwise. -/
theorem find_best_gap_threshold_argmax :
    (∀ (task : Task) (gaps : List Gap),
      find_best_gap task gaps = none ↔
        ∀ (j : Nat) (g : Gap), gaps[j]? = some g →
          task.duration_minutes ≤ g.duration_minutes →
          calculate_fit_score task g ≤ -1) ∧
    (∀ (task : Task) (gaps : List Gap) (i : Nat) (g : Gap) (s : ℚ),
      find_best_gap task gaps = some (i, g, s) →
        gaps[i]? = some g ∧ task.duration_minutes ≤ g.duration_minutes ∧
        s = calculate_fit_score task g ∧ -1 < s ∧
        (∀ (j : Nat) (g' : Gap), gaps[j]? = some g' →
          task.duration_minutes ≤ g'.duration_minutes →
          calculate_fit_score task g' ≤ s) ∧
        (∀ (j : Nat) (g' : Gap), j < i → gaps[j]? = some g' →
          task.duration_minutes ≤ g'.duration_minutes →
          calculate_fit_score task g' < s)) ∧
    (∀ (t : Task) (ts : List Task) (gaps : List Gap),
      find_best_gap t gaps = none →
        matchLoop (t :: ts) gaps =
          ((matchLoop ts gaps).1, t :: (matchLoop ts gaps).2.1,
            (matchLoop ts gaps).2.2)) ∧
    (∀ (t : Task) (ts : List Task) (gaps : List Gap) (i : Nat) (g : Gap) (s : ℚ),
      find_best_gap t gaps = some (i, g, s) →
        matchLoop (t :: ts) gaps =
          (schedule_task_in_gap t g i s ::
              (matchLoop ts (update_gap_after_assignment gaps i t.duration_minutes)).1,
            (matchLoop ts (update_gap_after_assignment gaps i t.duration_minutes)).2.1,
            (matchLoop ts (update_gap_after_assignment gaps i t.duration_minutes)).2.2)) := by
  refine ⟨?_, ?_, ?_, ?_⟩
  · intro task gaps
    obtain ⟨bs', hst⟩ := find_best_gap_state task gaps
    constructor
    · intro hnone
      rw [hnone] at hst
      exact hst.2
    · intro hall
      rcases hres : find_best_gap task gaps with _ | ⟨i, g, s⟩
      · rfl
      · rw [hres] at hst
        obtain ⟨_, h2, h3, h4, h5, _, _⟩ := hst
        exact absurd (h4 ▸ h5) (not_lt.mpr (hall i g h2 h3))
  · intro task gaps i g s hres
    obtain ⟨bs', hst⟩ := find_best_gap_state task gaps
    rw [hres] at hst
    obtain ⟨_, h2, h3, h4, h5, h6, h7⟩ := hst
    exact ⟨h2, h3, h4, h5, h6, h7⟩
  · intro t ts gaps hnone
    rw [matchLoop, hnone]
  · intro t ts gaps i g s hres
    rw [matchLoop, hres]

/-- C1 (counterexample).  A 60-minute "breakfast" task against a single
exactly-fitting 60-minute gap at 20:00: the gap qualifies
(`60 ≥ 60`), yet its score `1 + 1/3 - 10` is below the `-1` sentinel of
`_find_best_gap`, so the task lands in `unscheduled` — contradicting the
claim that a task is scheduled whenever some gap qualifies. -/
theorem qualifying_gap_unscheduled_cex :
    bfastTask.duration_minutes ≤ eveningGap.duration_minutes ∧
    (match_tasks_to_gaps [bfastTask] [eveningGap]).scheduled_tasks = [] ∧
    (match_tasks_to_gaps [bfastTask] [eveningGap]).unscheduled_tasks = [bfastTask] := by
  refine ⟨by decide, ?_, ?_⟩ <;> with_unfolding_all decide

/-- C1 (witness): the loop equation of the amended theorem at a task too
long for the only gap (`find_best_gap` returns `None`). -/
theorem find_best_gap_threshold_argmax_witness :
    matchLoop [hugeTask] [fitGap] =
      ((matchLoop [] [fitGap]).1, hugeTask :: (matchLoop [] [fitGap]).2.1,
        (matchLoop [] [fitGap]).2.2) :=
  find_best_gap_threshold_argmax.2.2.1 hugeTask [] [fitGap] (by decide)

/-- Properties preserved through absorption are preserved by the sweep. -/
theorem mergeSweep_preserve (P : TimeInterval → Prop)
    (habsorb : ∀ c n, P c → P n → P ⟨c.start, max c.stop n.stop⟩) :
    ∀ (c : TimeInterval) (l : List TimeInterval), P c → (∀ x ∈ l, P x) →
      ∀ x ∈ mergeSweep c l, P x := by
  intro c l
  induction l generalizing c with
  | nil =>
    intro hc _ x hx
    rw [mergeSweep, List.mem_singleton] at hx
    exact hx ▸ hc
  | cons n rest ih =>
    intro hc hl x hx
    rw [mergeSweep] at hx
    by_cases h : n.start ≤ c.stop
    · rw [if_pos h] at hx
      exact ih _ (habsorb c n hc (hl n (List.mem_cons_self n rest)))
        (fun y hy => hl y (List.mem_cons_of_mem n hy)) x hx
    · rw [if_neg h] at hx
      rcases List.mem_cons.mp hx with rfl | hx
      · exact hc
      · exact ih n (hl n (List.mem_cons_self n rest))
          (fun y hy => hl y (List.mem_cons_of_mem n hy)) x hx

/-- Properties preserved through absorption carry from the input of
`mergeIntervals` to its output. -/
theorem mergeIntervals_preserve (P : TimeInterval → Prop)
    (habsorb : ∀ c n, P c → P n → P ⟨c.start, max c.stop n.stop⟩)
    (X : List TimeInterval) (hX : ∀ x ∈ X, P x) :
    ∀ x ∈ mergeIntervals X, P x := by
  unfold mergeIntervals
  cases hs : sortIntervals X with
  | nil => simp
  | cons c rest =>
    have hmem : ∀ y ∈ c :: rest, P y := by
      intro y hy
      apply hX
      have hsub := (List.perm_insertionSort (fun a b => a.start ≤ b.start) X).subset
      rw [show List.insertionSort (fun a b => a.start ≤ b.start) X = sortIntervals X from rfl,
        hs] at hsub
      exact hsub hy
    exact mergeSweep_preserve P habsorb c rest (hmem c (List.mem_cons_self c rest))
      (fun y hy => hmem y (List.mem_cons_of_mem c hy))

/-- In a separated list of well-formed intervals, every later interval
starts strictly after the head's end. -/
theorem chain_sep_forall {b : TimeInterval} {rest : List TimeInterval}
    (hch : List.Chain' (fun a b => a.stop < b.start) (b :: rest))
    (hwf : ∀ x ∈ rest, x.start ≤ x.stop) :
    ∀ x ∈ rest, b.stop < x.start := by
  induction rest generalizing b with
  | nil => intro x hx; cases hx
  | cons r rest' ih =>
    intro x hx
    have h1 : b.stop < r.start := (List.chain'_cons.mp hch).1
    rcases List.mem_cons.mp hx with rfl | hx
    · exact h1
    · have h2 := ih (List.chain'_cons.mp hch).2
        (fun y hy => hwf y (List.mem_cons_of_mem r hy)) x hx
      have hr : r.start ≤ r.stop := hwf r (List.mem_cons_self r rest')
      omega

/-- Every candidate fragment starts at or after the cursor. -/
theorem freeCandidates_start_lb :
    ∀ (merged : List TimeInterval) (cursor end_dt : Int),
      ∀ x ∈ freeCandidates cursor end_dt merged, cursor ≤ x.start := by
  intro merged
  induction merged with
  | nil =>
    intro cursor end_dt x hx
    rw [freeCandidates] at hx
    split at hx
    · rw [List.mem_singleton] at hx
      exact hx ▸ le_refl _
    · cases hx
  | cons b rest ih =>
    intro cursor end_dt x hx
    rw [freeCandidates] at hx
    split at hx
    · rcases List.mem_cons.mp hx with rfl | hx
      · exact le_refl _
      · exact le_trans (le_max_left _ _) (ih _ _ x hx)
    · exact le_trans (le_max_left _ _) (ih _ _ x hx)

/-- Every candidate fragment ends by `end_dt` when every busy interval
starts by `end_dt`. -/
theorem freeCandidates_stop_ub :
    ∀ (merged : List TimeInterval) (cursor end_dt : Int),
      (∀ iv ∈ merged, iv.start ≤ end_dt) →
      ∀ x ∈ freeCandidates cursor end_dt merged, x.stop ≤ end_dt := by
  intro merged
  induction merged with
  | nil =>
    intro cursor end_dt _ x hx
    rw [freeCandidates] at hx
    split at hx
    · rw [List.mem_singleton] at hx
      exact hx ▸ le_refl _
    · cases hx
  | cons b rest ih =>
    intro cursor end_dt hub x hx
    rw [freeCandidates] at hx
    split at hx
    · rcases List.mem_cons.mp hx with rfl | hx
      · exact hub b (List.mem_cons_self b rest)
      · exact ih _ _ (fun y hy => hub y (List.mem_cons_of_mem b hy)) x hx
    · exact ih _ _ (fun y hy => hub y (List.mem_cons_of_mem b hy)) x hx

/-- The slots emitted by the inversion walk are, as intervals, exactly the
candidate fragments that pass the `min_slot_minutes` filter. -/
theorem invertBusy_map (min_slot_minutes : Int) :
    ∀ (merged : List TimeInterval) (cursor end_dt : Int) (ctr : Nat),
      (invertBusy min_slot_minutes cursor end_dt ctr merged).map
          (fun s => (⟨s.start, s.stop⟩ : TimeInterval)) =
        (freeCandidates cursor end_dt merged).filter
          (fun c => decide (min_slot_minutes ≤ (c.stop - c.start) / 60)) := by
  intro merged
  induction merged with
  | nil =>
    intro cursor end_dt ctr
    rw [invertBusy, freeCandidates]
    by_cases h1 : cursor < end_dt
    · rw [if_pos h1, if_pos h1]
      by_cases h2 : min_slot_minutes ≤ (end_dt - cursor) / 60
      · simp [h2]
      · simp [h2]
    · rw [if_neg h1, if_neg h1]
      rfl
  | cons b rest ih =>
    intro cursor end_dt ctr
    rw [invertBusy, freeCandidates]
    by_cases h1 : cursor < b.start
    · rw [if_pos h1, if_pos h1]
      by_cases h2 : min_slot_minutes ≤ (b.start - cursor) / 60
      · rw [if_pos h2]
        simp only [List.map_cons, List.filter_cons]
        rw [ih]
        simp [h2]
      · rw [if_neg h2]
        simp only [List.filter_cons]
        rw [ih]
        simp [h2]
    · rw [if_neg h1, if_neg h1]
      exact ih _ _ _

/-- Splitting a count along a Boolean filter. -/
theorem countP_filter_split {α : Type _} (p q : α → Bool) (l : List α) :
    (l.filter q).countP p + (l.filter (fun a => !(q a))).countP p = l.countP p := by
  induction l with
  | nil => rfl
  | cons a t ih =>
    by_cases hq : q a <;> by_cases hp : p a <;>
      simp [List.filter_cons, List.countP_cons, hq, hp, ← ih] <;> omega

/-- When the cursor has already reached `end_dt` and every busy interval
starts by `end_dt`, the inversion walk emits nothing. -/
theorem invertBusy_empty (min_slot_minutes : Int) :
    ∀ (merged : List TimeInterval) (cursor end_dt : Int) (ctr : Nat),
      end_dt ≤ cursor → (∀ iv ∈ merged, iv.start ≤ end_dt) →
      invertBusy min_slot_minutes cursor end_dt ctr merged = [] := by
  intro merged
  induction merged with
  | nil =>
    intro cursor end_dt ctr h _
    rw [invertBusy, if_neg (not_lt.mpr h)]
  | cons b rest ih =>
    intro cursor end_dt ctr h hub
    rw [invertBusy,
      if_neg (not_lt.mpr (le_trans (hub b (List.mem_cons_self b rest)) h))]
    exact ih _ _ _ (le_trans h (le_max_left _ _))
      (fun y hy => hub y (List.mem_cons_of_mem b hy))

/-- Partition core: for a separated, well-formed busy list whose intervals
start by `end_dt`, every point of `[cursor, end_dt)` lies in exactly one
candidate fragment or busy interval. -/
theorem candidates_busy_partition (end_dt t : Int) :
    ∀ (merged : List TimeInterval) (cursor : Int),
      List.Chain' (fun a b => a.stop < b.start) merged →
      (∀ iv ∈ merged, iv.start ≤ iv.stop) →
      (∀ iv ∈ merged, iv.start ≤ end_dt) →
      cursor ≤ t → t < end_dt →
      (freeCandidates cursor end_dt merged).countP (ivContains t)
        + merged.countP (ivContains t) = 1 := by
  intro merged
  induction merged with
  | nil =>
    intro cursor _ _ _ ht1 ht2
    rw [freeCandidates, if_pos (lt_of_le_of_lt ht1 ht2)]
    simp [ivContains, ht1, ht2]
  | cons b rest ih =>
    intro cursor hch hwf hub ht1 ht2
    have hbwf : b.start ≤ b.stop := hwf b (List.mem_cons_self b rest)
    have hrest_sep : ∀ x ∈ rest, b.stop < x.start :=
      chain_sep_forall hch (fun y hy => hwf y (List.mem_cons_of_mem b hy))
    have hchain_tail : List.Chain' (fun a b => a.stop < b.start) rest := hch.tail
    have hwf_tail : ∀ iv ∈ rest, iv.start ≤ iv.stop :=
      fun y hy => hwf y (List.mem_cons_of_mem b hy)
    have hub_tail : ∀ iv ∈ rest, iv.start ≤ end_dt :=
      fun y hy => hub y (List.mem_cons_of_mem b hy)
    rw [freeCandidates]
    rcases lt_or_ge t b.start with hcase | hcase
    · -- t before the busy block: exactly the head candidate contains it
      rw [if_pos (lt_of_le_of_lt ht1 hcase)]
      have hrest0 : rest.countP (ivContains t) = 0 := by
        rw [List.countP_eq_zero]
        intro x hx
        have hsep := hrest_sep x hx
        simp only [ivContains, Bool.and_eq_true, decide_eq_true_eq, not_and, not_lt]
        omega
      have hcand0 : (freeCandidates (max cursor b.stop) end_dt rest).countP
          (ivContains t) = 0 := by
        rw [List.countP_eq_zero]
        intro x hx
        have hxs := freeCandidates_start_lb rest (max cursor b.stop) end_dt x hx
        simp only [ivContains, Bool.and_eq_true, decide_eq_true_eq, not_and, not_lt]
        omega
      have hheadc : ivContains t (⟨cursor, b.start⟩ : TimeInterval) = true := by
        simp [ivContains, ht1, hcase]
      have hheadb : ivContains t b = false := by
        simp only [ivContains, Bool.and_eq_false_iff, decide_eq_false_iff_not, not_le,
          not_lt]
        left
        exact hcase
      rw [List.countP_cons, List.countP_cons, hcand0, hrest0, hheadc, hheadb]
      simp
    · rcases lt_or_ge t b.stop with hcase2 | hcase2
      · -- t inside the busy block: exactly b contains it
        have hheadb : ivContains t b = true := by
          simp [ivContains, hcase, hcase2]
        have hrest0 : rest.countP (ivContains t) = 0 := by
          rw [List.countP_eq_zero]
          intro x hx
          have hsep := hrest_sep x hx
          simp only [ivContains, Bool.and_eq_true, decide_eq_true_eq, not_and, not_lt]
          omega
        have hcand0 : (freeCandidates (max cursor b.stop) end_dt rest).countP
            (ivContains t) = 0 := by
          rw [List.countP_eq_zero]
          intro x hx
          have hxs := freeCandidates_start_lb rest (max cursor b.stop) end_dt x hx
          simp only [ivContains, Bool.and_eq_true, decide_eq_true_eq, not_and, not_lt]
          omega
        have hheadc : ivContains t (⟨cursor, b.start⟩ : TimeInterval) = false := by
          simp only [ivContains, Bool.and_eq_false_iff, decide_eq_false_iff_not, not_le,
            not_lt]
          right
          exact hcase
        rw [List.countP_cons, hheadb, hrest0]
        by_cases hemit : cursor < b.start
        · rw [if_pos hemit, List.countP_cons, hcand0, hheadc]
          simp
        · rw [if_neg hemit, hcand0]
          simp
      · -- t after the busy block: recurse
        have hmax : max cursor b.stop ≤ t := max_le ht1 hcase2
        have hIH := ih (max cursor b.stop) hchain_tail hwf_tail hub_tail hmax ht2
        have hheadb : ivContains t b = false := by
          simp only [ivContains, Bool.and_eq_false_iff, decide_eq_false_iff_not, not_le,
            not_lt]
          right
          exact hcase2
        have hheadc : ivContains t (⟨cursor, b.start⟩ : TimeInterval) = false := by
          simp only [ivContains, Bool.and_eq_false_iff, decide_eq_false_iff_not, not_le,
            not_lt]
          right
          exact hcase
        by_cases hemit : cursor < b.start
        · rw [if_pos hemit]
          simp only [List.countP_cons, hheadb, hheadc, Bool.false_eq_true, if_false,
            Nat.add_zero]
          omega
        · rw [if_neg hemit]
          simp only [List.countP_cons, hheadb, Bool.false_eq_true, if_false, Nat.add_zero]
          omega

/-- Theorem: `freeSlotsCore` always takes the merge-and-invert path: the sleep
window contributes at least one busy interval, so the `if not
busy_intervals` branch is dead. -/
theorem freeSlotsCore_eq (events : List (Int × Int)) (start_dt end_dt : Int)
    (ss se : Nat) (min_slot_minutes : Int) :
    freeSlotsCore events start_dt end_dt ss se min_slot_minutes =
      invertBusy min_slot_minutes start_dt end_dt 1
        (mergeIntervals (sleepIntervals ss se ++ clampEvents start_dt end_dt events)) := by
  have hne : (sleepIntervals ss se ++ clampEvents start_dt end_dt events).isEmpty
      = false := by
    unfold sleepIntervals
    split <;> rfl
  unfold freeSlotsCore
  rw [if_neg (by rw [hne]; exact Bool.false_ne_true)]

/-- When the effective start lies before the day end, `calculate_free_slots`
is the inversion of the merged busy list over
`[effective_start, day_end]`. -/
theorem calculate_free_slots_eq (events : List (Int × Int))
    (day_start day_end ss se : Nat) (min_slot_minutes : Int) (sfn : Bool) (now : Int)
    (hlt : effectiveStart day_start sfn now < 60 * day_end) :
    calculate_free_slots events day_start day_end ss se min_slot_minutes sfn now =
      invertBusy min_slot_minutes (effectiveStart day_start sfn now) (60 * day_end) 1
        (mergedBusyOf events day_start day_end ss se sfn now) := by
  unfold calculate_free_slots mergedBusyOf effectiveStart
  dsimp only
  unfold effectiveStart at hlt
  by_cases h1 : sfn = true ∧ 0 ≤ now ∧ now < 86400
  · rw [if_pos h1] at hlt
    rw [if_pos h1, if_neg (not_le.mpr hlt), if_pos h1]
    exact freeSlotsCore_eq events _ _ ss se min_slot_minutes
  · rw [if_neg h1] at hlt
    rw [if_neg h1, if_neg h1]
    exact freeSlotsCore_eq events _ _ ss se min_slot_minutes

/-- Theorem: `calculate_free_slots` either returns the empty list (the
`start_from_now` early return) or the inversion form. -/
theorem calculate_free_slots_cases (events : List (Int × Int))
    (day_start day_end ss se : Nat) (min_slot_minutes : Int) (sfn : Bool) (now : Int) :
    calculate_free_slots events day_start day_end ss se min_slot_minutes sfn now = [] ∨
    calculate_free_slots events day_start day_end ss se min_slot_minutes sfn now =
      invertBusy min_slot_minutes (effectiveStart day_start sfn now) (60 * day_end) 1
        (mergedBusyOf events day_start day_end ss se sfn now) := by
  by_cases hlt : effectiveStart day_start sfn now < 60 * day_end
  · exact Or.inr
      (calculate_free_slots_eq events day_start day_end ss se min_slot_minutes sfn now hlt)
  · by_cases h1 : sfn = true ∧ 0 ≤ now ∧ now < 86400
    · left
      unfold calculate_free_slots
      unfold effectiveStart at hlt
      rw [if_pos h1] at hlt
      rw [if_pos h1, if_pos (not_lt.mp hlt)]
    · right
      unfold calculate_free_slots mergedBusyOf effectiveStart
      dsimp only
      rw [if_neg h1, if_neg h1]
      exact freeSlotsCore_eq events _ _ ss se min_slot_minutes

/-- Every raw busy interval (sleep parts and clamped events) is
well-formed. -/
theorem busy_input_wf (events : List (Int × Int)) (start_dt end_dt : Int)
    (ss se : Nat) (hss : ss ≤ 1439) :
    ∀ x ∈ sleepIntervals ss se ++ clampEvents start_dt end_dt events,
      x.start ≤ x.stop := by
  intro x hx
  rcases List.mem_append.mp hx with hx | hx
  · unfold sleepIntervals at hx
    split at hx
    · rcases List.mem_cons.mp hx with rfl | hx
      · show 60 * (ss : Int) ≤ 86399
        have hss' : (ss : Int) ≤ 1439 := by exact_mod_cast hss
        omega
      · rw [List.mem_singleton] at hx
        subst hx
        show (0 : Int) ≤ 60 * (se : Int)
        positivity
    · rw [List.mem_singleton] at hx
      subst hx
      show 60 * (ss : Int) ≤ 60 * (se : Int)
      rename_i hle
      have : (ss : Int) ≤ (se : Int) := by exact_mod_cast le_of_not_lt hle
      omega
  · obtain ⟨e, _, hsome⟩ := List.mem_filterMap.mp hx
    dsimp only at hsome
    split at hsome
    · rename_i hltE
      cases hsome
      exact le_of_lt hltE
    · cases hsome

/-- Every raw busy interval starts no later than `end_dt`, provided the
sleep window starts by `end_dt` (and `end_dt` is nonnegative). -/
theorem busy_input_start_ub (events : List (Int × Int)) (start_dt end_dt : Int)
    (ss se : Nat) (hsd : 60 * (ss : Int) ≤ end_dt) (hend : (0 : Int) ≤ end_dt) :
    ∀ x ∈ sleepIntervals ss se ++ clampEvents start_dt end_dt events,
      x.start ≤ end_dt := by
  intro x hx
  rcases List.mem_append.mp hx with hx | hx
  · unfold sleepIntervals at hx
    split at hx
    · rcases List.mem_cons.mp hx with rfl | hx
      · exact hsd
      · rw [List.mem_singleton] at hx
        subst hx
        exact hend
    · rw [List.mem_singleton] at hx
      subst hx
      exact hsd
  · obtain ⟨e, _, hsome⟩ := List.mem_filterMap.mp hx
    dsimp only at hsome
    split at hsome
    · rename_i hltE
      cases hsome
      exact le_of_lt (lt_of_lt_of_le hltE (min_le_left _ _))
    · cases hsome

/-- C3 (amended).  For every call with the sleep window inside the day
(`sleep_start ≤ day_end`, a valid clock time): every instant of
`[effective_start, day_end)` lies in exactly one produced free slot,
discarded sub-threshold fragment, or merged busy interval; and every
produced free slot lies inside `[effective_start, day_end]`.  (Without the
sleep hypothesis the second clause fails: the sleep interval is injected
unclamped, and a sleep block starting after `day_end` yields a free slot
reaching past `day_end`, as the counterexample shows.) -/
theorem free_slots_partition (events : List (Int × Int))
    (day_start day_end sleep_start sleep_end : Nat) (min_slot_minutes : Int)
    (sfn : Bool) (now : Int)
    (hss : sleep_start ≤ 1439) (hsd : sleep_start ≤ day_end) :
    (∀ t : Int, effectiveStart day_start sfn now ≤ t → t < 60 * day_end →
      (calculate_free_slots events day_start day_end sleep_start sleep_end
          min_slot_minutes sfn now).countP (slotContains t)
        + (discardedFragments min_slot_minutes (effectiveStart day_start sfn now)
            (60 * day_end)
            (mergedBusyOf events day_start day_end sleep_start sleep_end sfn now)).countP
            (ivContains t)
        + (mergedBusyOf events day_start day_end sleep_start sleep_end sfn now).countP
            (ivContains t) = 1) ∧
    (∀ s ∈ calculate_free_slots events day_start day_end sleep_start sleep_end
        min_slot_minutes sfn now,
      effectiveStart day_start sfn now ≤ s.start ∧ s.stop ≤ 60 * day_end) := by
  have hend : (0 : Int) ≤ 60 * (day_end : Int) := by positivity
  have hsdInt : 60 * (sleep_start : Int) ≤ 60 * (day_end : Int) := by
    have : (sleep_start : Int) ≤ (day_end : Int) := by exact_mod_cast hsd
    omega
  have hwf := busy_input_wf events (effectiveStart day_start sfn now) (60 * day_end)
    sleep_start sleep_end hss
  have hub := busy_input_start_ub events (effectiveStart day_start sfn now) (60 * day_end)
    sleep_start sleep_end hsdInt hend
  have hMwf : ∀ x ∈ mergedBusyOf events day_start day_end sleep_start sleep_end sfn now,
      x.start ≤ x.stop := by
    unfold mergedBusyOf
    exact mergeIntervals_preserve (fun x => x.start ≤ x.stop)
      (fun c n hc _ => le_trans hc (le_max_left _ _)) _ hwf
  have hMub : ∀ x ∈ mergedBusyOf events day_start day_end sleep_start sleep_end sfn now,
      x.start ≤ 60 * day_end := by
    unfold mergedBusyOf
    exact mergeIntervals_preserve (fun x => x.start ≤ 60 * (day_end : Int))
      (fun c n hc _ => hc) _ hub
  have hMch : List.Chain' (fun a b => a.stop < b.start)
      (mergedBusyOf events day_start day_end sleep_start sleep_end sfn now) := by
    unfold mergedBusyOf
    exact mergeIntervals_chain _
  constructor
  · intro t ht1 ht2
    have hlt : effectiveStart day_start sfn now < 60 * day_end := lt_of_le_of_lt ht1 ht2
    rw [calculate_free_slots_eq events day_start day_end sleep_start sleep_end
      min_slot_minutes sfn now hlt]
    have hkept : (invertBusy min_slot_minutes (effectiveStart day_start sfn now)
          (60 * day_end) 1
          (mergedBusyOf events day_start day_end sleep_start sleep_end sfn now)).countP
          (slotContains t)
        = ((freeCandidates (effectiveStart day_start sfn now) (60 * day_end)
            (mergedBusyOf events day_start day_end sleep_start sleep_end sfn now)).filter
            (fun c => decide (min_slot_minutes ≤ (c.stop - c.start) / 60))).countP
            (ivContains t) := by
      rw [← invertBusy_map min_slot_minutes
        (mergedBusyOf events day_start day_end sleep_start sleep_end sfn now)
        (effectiveStart day_start sfn now) (60 * day_end) 1]
      rw [List.countP_map]
      rfl
    have hdisc : discardedFragments min_slot_minutes (effectiveStart day_start sfn now)
          (60 * day_end)
          (mergedBusyOf events day_start day_end sleep_start sleep_end sfn now)
        = (freeCandidates (effectiveStart day_start sfn now) (60 * day_end)
            (mergedBusyOf events day_start day_end sleep_start sleep_end sfn now)).filter
            (fun c => !(decide (min_slot_minutes ≤ (c.stop - c.start) / 60))) := by
      unfold discardedFragments
      congr 1
      funext c
      exact decide_not
    have hsplit : ((freeCandidates (effectiveStart day_start sfn now) (60 * day_end)
            (mergedBusyOf events day_start day_end sleep_start sleep_end sfn now)).filter
            (fun c => decide (min_slot_minutes ≤ (c.stop - c.start) / 60))).countP
            (ivContains t)
        + ((freeCandidates (effectiveStart day_start sfn now) (60 * day_end)
            (mergedBusyOf events day_start day_end sleep_start sleep_end sfn now)).filter
            (fun c => !(decide (min_slot_minutes ≤ (c.stop - c.start) / 60)))).countP
            (ivContains t)
        = (freeCandidates (effectiveStart day_start sfn now) (60 * day_end)
            (mergedBusyOf events day_start day_end sleep_start sleep_end sfn now)).countP
            (ivContains t) :=
      countP_filter_split _ _ _
    have hpart := candidates_busy_partition (60 * day_end) t
      (mergedBusyOf events day_start day_end sleep_start sleep_end sfn now)
      (effectiveStart day_start sfn now) hMch hMwf hMub ht1 ht2
    rw [hkept, hdisc]
    omega
  · intro s hs
    rcases calculate_free_slots_cases events day_start day_end sleep_start sleep_end
        min_slot_minutes sfn now with hE | hE
    · rw [hE] at hs
      cases hs
    · rw [hE] at hs
      have hmem : (⟨s.start, s.stop⟩ : TimeInterval) ∈
          (freeCandidates (effectiveStart day_start sfn now) (60 * day_end)
            (mergedBusyOf events day_start day_end sleep_start sleep_end sfn now)).filter
            (fun c => decide (min_slot_minutes ≤ (c.stop - c.start) / 60)) := by
        rw [← invertBusy_map min_slot_minutes
          (mergedBusyOf events day_start day_end sleep_start sleep_end sfn now)
          (effectiveStart day_start sfn now) (60 * day_end) 1]
        exact List.mem_map_of_mem _ hs
      have hc := List.mem_of_mem_filter hmem
      exact ⟨freeCandidates_start_lb _ _ _ _ hc,
        freeCandidates_stop_ub _ _ _ hMub _ hc⟩

/-- C3 (counterexample).  The claim also asserts that no free slot lies
outside `[effective_start, day_end]`.  With `day_end = 18:00` and a sleep
block 20:00-22:00 (injected without clamping), the single produced slot
runs from 00:00 to 20:00 — past `day_end`. -/
theorem free_slot_outside_range_cex :
    calculate_free_slots [] 0 1080 1200 1320 15 false 0 = [⟨1, 0, 72000, 1200⟩] ∧
    60 * (1080 : Int) < 72000 := by
  exact ⟨by decide, by decide⟩

/-- C3 (witness): the amended partition at the spec's own scenario (events
09:00-10:00 and 12:00-13:00, default day and sleep bounds), evaluated at
the instant 08:00. -/
theorem free_slots_partition_witness :
    (calculate_free_slots [(9 * 3600, 10 * 3600), (12 * 3600, 13 * 3600)]
        0 1439 1380 420 15 false 0).countP (slotContains 28800)
      + (discardedFragments 15 (effectiveStart 0 false 0) (60 * 1439)
          (mergedBusyOf [(9 * 3600, 10 * 3600), (12 * 3600, 13 * 3600)]
            0 1439 1380 420 false 0)).countP (ivContains 28800)
      + (mergedBusyOf [(9 * 3600, 10 * 3600), (12 * 3600, 13 * 3600)]
          0 1439 1380 420 false 0).countP (ivContains 28800) = 1 :=
  (free_slots_partition [(9 * 3600, 10 * 3600), (12 * 3600, 13 * 3600)]
      0 1439 1380 420 15 false 0 (by decide) (by decide)).1
    28800 (by decide) (by decide)

end TimeOpti
